import Mathlib

/-!
Shallow embedding of the `vendor` tool (vendor.go): the dependency-graph
walk, classifiers, copy mechanics, manifest recorder and skip reporter.
External effects (the `go list` resolver, the filesystem, `git`) are
modelled as explicit oracles threaded through the definitions; everything
else is translated directly from the Go source.
-/

namespace Vendor

/-- Mirrors the `PackageError` struct of vendor.go. -/
structure PackageError where
  ImportStack : List String := []
  Pos : String := ""
  Err : String := ""
deriving DecidableEq, Repr

/-- Mirrors the `Package` struct of vendor.go (the fields the tool reads:
directory, import path, standard flag, the eleven source-file lists fed to
`flatten` in `copyPackage`, direct imports, transitive deps, load error).
Per the struct's own comment, `Deps` holds all (recursively) imported
dependencies, not only direct imports. -/
structure Package where
  Dir : String := ""
  ImportPath : String := ""
  Standard : Bool := false
  GoFiles : List String := []
  CgoFiles : List String := []
  IgnoredGoFiles : List String := []
  CFiles : List String := []
  CXXFiles : List String := []
  MFiles : List String := []
  HFiles : List String := []
  SFiles : List String := []
  SwigFiles : List String := []
  SwigCXXFiles : List String := []
  SysoFiles : List String := []
  Imports : List String := []
  Deps : List String := []
  Error : Option PackageError := none
deriving DecidableEq, Repr

/-- Go's `strings.Contains(s, pat)`: `pat` occurs as a contiguous substring
of `s`, on character lists. -/
def goContains (s pat : List Char) : Bool :=
  match s with
  | [] => pat.isEmpty
  | _ :: t => pat.isPrefixOf s || goContains t pat

/-- vendor.go `isVendored`: `strings.Contains(p.ImportPath, "/vendor/")`. -/
def isVendored (p : Package) : Bool :=
  goContains p.ImportPath.toList "/vendor/".toList

/-- vendor.go `isLocal`: `strings.HasPrefix(d.Dir, getwd())`, with the
working directory `cwd` captured once at process start and passed in. -/
def isLocal (d : Package) (cwd : String) : Bool :=
  cwd.toList.isPrefixOf d.Dir.toList

/-- Slash-separated path components of a character list (used only to
state claims about path-segment matching, not by the tool itself). -/
def splitComps : List Char → List (List Char)
  | [] => [[]]
  | c :: t =>
    let r := splitComps t
    if c = '/' then [] :: r
    else
      match r with
      | [] => [[c]]
      | h :: t2 => (c :: h) :: t2

/-- Path components of a package's import path. -/
def importComps (p : Package) : List (List Char) :=
  splitComps p.ImportPath.toList

/-- Model filesystem: a set of existing directories and a map from file
path to file content. -/
structure FS where
  dirs : List String := []
  files : List (String × String) := []
deriving DecidableEq, Repr

/-- Content of the file at path `p`, if it exists. -/
def FS.lookupFile (fs : FS) (p : String) : Option String :=
  (fs.files.find? (fun e => e.1 == p)).map Prod.snd

/-- Create or overwrite the file at path `p` with content `c`. -/
def FS.setFile (fs : FS) (p c : String) : FS :=
  { fs with files := (p, c) :: fs.files.filter (fun e => !(e.1 == p)) }

/-- Go's `filepath.Join` on two already-clean components. -/
def joinPath (a b : String) : String := a ++ "/" ++ b

/-- Join path components back with slashes (inverse of `splitComps`). -/
def joinComps : List (List Char) → List Char
  | [] => []
  | [c] => c
  | c :: rest => c ++ '/' :: joinComps rest

/-- All ancestor paths of `p` (including `p` itself), by slash-separated
components; these are the directories `os.MkdirAll` creates. -/
def ancestorPaths (p : String) : List String :=
  let comps := splitComps p.toList
  (List.range comps.length).map (fun i => String.mk (joinComps (comps.take (i + 1))))

/-- `os.MkdirAll`: record the directory and all its ancestors. -/
def FS.mkDirAll (fs : FS) (p : String) : FS :=
  { fs with dirs := fs.dirs ++ (ancestorPaths p).filter (fun d => !(fs.dirs.contains d)) }

/-- Failure oracle for the filesystem calls made by `copyPackage` and
`copyFile` (which OS errors occur is environment data, not program
logic). -/
structure FSOracle where
  mkdirFails : String → Bool := fun _ => false
  createFails : String → Bool := fun _ => false

/-- vendor.go `copyFile`: `os.Create(dstpath)` (truncating create, before
the source is opened), then `os.Open(srcpath)`, then `io.Copy`. Returns
the filesystem after whatever writes happened plus the error, if any. -/
def copyFile (o : FSOracle) (fs : FS) (dstpath srcpath : String) : FS × Option String :=
  if o.createFails dstpath then (fs, some ("create " ++ dstpath)) else
  let fs1 := fs.setFile dstpath ""
  match fs1.lookupFile srcpath with
  | none => (fs1, some ("open " ++ srcpath))
  | some c => (fs1.setFile dstpath c, none)

/-- vendor.go `flatten`: concatenate the file-name lists. -/
def flatten (sss : List (List String)) : List String := sss.flatten

/-- The file list `copyPackage` builds via `flatten`. -/
def packageFiles (p : Package) : List String :=
  flatten [p.GoFiles, p.CgoFiles, p.IgnoredGoFiles, p.CFiles, p.CXXFiles,
    p.MFiles, p.HFiles, p.SFiles, p.SwigFiles, p.SwigCXXFiles, p.SysoFiles]

/-- The per-file loop of `copyPackage`: copy each named file from `srcdir`
into `vdir`, returning on the first failure with the filesystem as it
stands at that point. -/
def copyFiles (o : FSOracle) (vdir srcdir : String) (fs : FS) : List String → FS × Option String
  | [] => (fs, none)
  | fname :: rest =>
    match copyFile o fs (joinPath vdir fname) (joinPath srcdir fname) with
    | (fs1, some e) => (fs1, some e)
    | (fs1, none) => copyFiles o vdir srcdir fs1 rest

/-- vendor.go `copyPackage`: `os.MkdirAll(filepath.Join("vendor",
p.ImportPath))` first, then copy each file of `flatten(...)` in order,
returning on the first error with no rollback. -/
def copyPackage (o : FSOracle) (fs : FS) (p : Package) : FS × Option String :=
  let vdir := joinPath "vendor" p.ImportPath
  if o.mkdirFails vdir then (fs, some ("mkdir " ++ vdir)) else
  copyFiles o vdir p.Dir (fs.mkDirAll vdir) (packageFiles p)

/-- Diagnostics the tool emits without aborting: the `log.Printf` for a
package load error, the `log.Printf` for a copy error, and the stderr
report for a commit-hash lookup error in `reportManifest`. -/
inductive LogEv
  | pkgErr (msg : String)
  | copyErr (importPath msg : String)
  | commitErr (importPath msg : String)
deriving DecidableEq, Repr

/-- vendor.go `noteExtVendoredDep`: deduplicating insertion into the
skip set of externally vendored import paths. -/
def noteExtVendoredDep (s : List String) (p : Package) : List String :=
  if s.contains p.ImportPath then s else s ++ [p.ImportPath]

/-- vendor.go `noteManifest`: map assignment `manifest[p.ImportPath] = p`,
modelled as an association list with overwrite. -/
def noteManifest (m : List (String × Package)) (p : Package) : List (String × Package) :=
  (p.ImportPath, p) :: m.filter (fun e => !(e.1 == p.ImportPath))

/-- Run state of one `vendor` process: the filesystem, the manifest map,
the external-vendor skip set, the emitted diagnostics, and the `log.Fatal`
flag (once set, nothing further executes). `visitedTrace` and
`batchTrace` are observation-only ghost fields recording, respectively,
every descriptor whose loop body ran and every batch of names handed to
the resolver; they alter no control flow. -/
structure St where
  fs : FS := {}
  manifest : List (String × Package) := []
  extVendoredDeps : List String := []
  logs : List LogEv := []
  dead : Bool := false
  fatalMsg : Option String := none
  visitedTrace : List String := []
  batchTrace : List (List String) := []
deriving DecidableEq, Repr

/-- Environment of a run: the `go list` resolver (`listPackages`), the
filesystem failure oracle, and the working directory captured once at
process start (`getwd`). -/
structure Env where
  resolve : List String → Except String (List Package)
  fso : FSOracle := {}
  cwd : String := ""

/-- The body of the `for _, p := range ps` loop of vendor.go `vendor`, for
one descriptor. `goDeps` is `some f` when `andDeps` is true, in which case
the trailing `if andDeps { vendor(p.Deps, false) }` runs `f p.Deps`;
`none` models `andDeps = false`. Order of checks as in the source:
package error, `Standard`, `isVendored` (noting the skip set when not
local), then copy-and-record for non-local packages (a copy error logs
and skips the rest of the iteration), then the recursion. -/
def vendorStep (env : Env) (goDeps : Option (List String → St → St)) (p : Package) (st : St) : St :=
  if st.dead then st else
  let st := { st with visitedTrace := st.visitedTrace ++ [p.ImportPath] }
  match p.Error with
  | some e => { st with logs := st.logs ++ [.pkgErr e.Err] }
  | none =>
    if p.Standard then st
    else if isVendored p then
      if !(isLocal p env.cwd) then
        { st with extVendoredDeps := noteExtVendoredDep st.extVendoredDeps p }
      else st
    else if !(isLocal p env.cwd) then
      match copyPackage env.fso st.fs p with
      | (fs1, some e) => { st with fs := fs1, logs := st.logs ++ [.copyErr p.ImportPath e] }
      | (fs1, none) =>
        let st1 := { st with fs := fs1, manifest := noteManifest st.manifest p }
        match goDeps with
        | some f => f p.Deps st1
        | none => st1
    else
      match goDeps with
      | some f => f p.Deps st
      | none => st

/-- The descriptor loop of vendor.go `vendor` over a resolved batch. -/
def vendorList (env : Env) (goDeps : Option (List String → St → St)) :
    List Package → St → St
  | [], st => st
  | p :: rest, st => vendorList env goDeps rest (vendorStep env goDeps p st)

/-- One call to vendor.go `vendor`: resolve the batch (recording it in the
ghost batch trace), `log.Fatalf` on a resolver error (modelled by the
`dead` flag), else run the descriptor loop. -/
def vendorCall (env : Env) (goDeps : Option (List String → St → St))
    (names : List String) (st : St) : St :=
  if st.dead then st else
  let st := { st with batchTrace := st.batchTrace ++ [names] }
  match env.resolve names with
  | .error e => { st with dead := true, fatalMsg := some e }
  | .ok ps => vendorList env goDeps ps st

/-- The `andDeps = false` instance of vendor.go `vendor`: the source's
recursive call sites always pass `false`, so this instance performs no
recursion and the definition is non-recursive. -/
def vendorNoDeps (env : Env) (names : List String) (st : St) : St :=
  vendorCall env none names st

/-- vendor.go `vendor(names, andDeps)`: with `andDeps` true each eligible
descriptor triggers `vendor(p.Deps, false)`, i.e. `vendorNoDeps`. -/
def vendor (env : Env) (names : List String) (andDeps : Bool) (st : St) : St :=
  if andDeps then vendorCall env (some (vendorNoDeps env)) names st
  else vendorCall env none names st

/-- Outcome of one `os.Stat` call in `reportExtVendoredDep`: the path
exists, does not exist (`os.IsNotExist`), or the stat itself failed. -/
inductive StatRes
  | found
  | notFound
  | statErr (msg : String)
deriving DecidableEq, Repr

/-- True exactly for the `statErr` outcome. -/
def StatRes.isErr : StatRes → Bool
  | .statErr _ => true
  | _ => false

/-- Oracle for `os.Stat` during the skip report. -/
structure StatOracle where
  stat : String → StatRes := fun _ => .notFound

/-- vendor.go `reportExtVendoredDep`: for each noted import path, stat
`filepath.Join(getwd(), "vendor", k)`; print the path when absent, skip it
when present, and `log.Fatal` on any other stat error. Returns the lines
printed before the walk stopped and the fatal message, if any. -/
def reportExtVendoredDep (o : StatOracle) (cwd : String) :
    List String → List String × Option String
  | [] => ([], none)
  | k :: rest =>
    match o.stat (joinPath (joinPath cwd "vendor") k) with
    | .statErr m => ([], some m)
    | .found => reportExtVendoredDep o cwd rest
    | .notFound =>
      let r := reportExtVendoredDep o cwd rest
      (k :: r.1, r.2)

/-- Oracle for the revision boundary of `reportManifest`: the result of
`git rev-parse HEAD` in a directory, the `git diff-index` cleanliness
check, and whether `os.OpenFile` on the log file fails. -/
structure RevOracle where
  revParse : String → Except String String := fun _ => .error ""
  clean : String → Bool := fun _ => true
  openFails : String → Bool := fun _ => false

/-- vendor.go `commitHash`: on a failed `git rev-parse` return the
sentinel `"unknown"` together with the error; on success return the hash,
suffixed with a dirty marker when `isClean` fails. -/
def commitHash (o : RevOracle) (dir : String) : String × Option String :=
  match o.revParse dir with
  | .error e => ("unknown", some e)
  | .ok h => (if o.clean dir then h else h ++ " (dirty)", none)

/-- Association-list lookup standing for the Go map read
`manifest[imp]`. -/
def lookupManifest (m : List (String × Package)) (imp : String) : Option Package :=
  (m.find? (fun e => e.1 == imp)).map Prod.snd

/-- Lexicographic comparison of character lists, modelling Go's byte-wise
string comparison used by `sort.Strings`. -/
def charListLe : List Char → List Char → Bool
  | [], _ => true
  | _ :: _, [] => false
  | a :: as, b :: bs => if a < b then true else if b < a then false else charListLe as bs

/-- Go's `s <= t` on strings. -/
def strLe (a b : String) : Bool := charListLe a.toList b.toList

/-- The manifest keys in ascending order: `sort.Strings(imps)`. -/
def sortedImps (m : List (String × Package)) : List String :=
  List.insertionSort (fun a b => strLe a b = true) (m.map Prod.fst)

/-- The loop body of `reportManifest` over the sorted import paths: one
log line `commit ++ "\t" ++ imp` per path, and a stderr diagnostic for
each commit-hash failure. A key drawn from the map always resolves, so the
`none` lookup branch is unreachable. -/
def reportManifestLoop (o : RevOracle) (m : List (String × Package)) :
    List String → List String × List LogEv
  | [] => ([], [])
  | imp :: rest =>
    match lookupManifest m imp with
    | none => reportManifestLoop o m rest
    | some p =>
      let c := commitHash o p.Dir
      let r := reportManifestLoop o m rest
      ((c.1 ++ "\t" ++ imp) :: r.1,
       (match c.2 with
        | some e => [LogEv.commitErr imp e]
        | none => []) ++ r.2)

/-- vendor.go `reportManifest(name)`: open the log file in append mode
(`O_RDWR|O_CREATE|O_APPEND`, so prior contents survive), then write one
line per recorded entry in ascending import-path order. The log file is
modelled by its list of prior lines; opening it can fail per the
oracle. -/
def reportManifest (o : RevOracle) (name : String) (m : List (String × Package))
    (prior : List String) : Except String (List String × List LogEv) :=
  if o.openFails name then .error ("open " ++ name) else
  let r := reportManifestLoop o m (sortedImps m)
  .ok (prior ++ r.1, r.2)

/-! ### Concrete environments used by the claim theorems and witnesses -/

/-- The log line `reportManifest` writes for the import path `imp`: the
commit string for the recorded entry's directory, a tab, and the import
path (only used to state properties; keys drawn from the manifest always
resolve, so the `none` branch is never exercised there). -/
def impLine (o : RevOracle) (m : List (String × Package)) (imp : String) : String :=
  match lookupManifest m imp with
  | some p => (commitHash o p.Dir).1 ++ "\t" ++ imp
  | none => ""

/-- The stderr diagnostics `reportManifest` emits for the import path
`imp`: one commit-hash error when the revision lookup fails, nothing
otherwise. -/
def impErrLogs (o : RevOracle) (m : List (String × Package)) (imp : String) : List LogEv :=
  match lookupManifest m imp with
  | some p =>
    match (commitHash o p.Dir).2 with
    | some e => [LogEv.commitErr imp e]
    | none => []
  | none => []

/-- Trivial environment for witnesses. -/
def envTriv : Env := { resolve := fun _ => .ok [] }

/-- A standard-library descriptor. -/
def stdPkg : Package := { ImportPath := "fmt", Standard := true }

/-- Environment for the copy-failure witnesses: an empty project at
`/proj` and a resolver that returns nothing. -/
def envW : Env := { resolve := fun _ => .ok [], cwd := "/proj" }

/-- A vendorable package whose single Go source file is absent from the
model filesystem, so its copy fails at the open of the source file. -/
def pkgFail : Package := { Dir := "/ext/x", ImportPath := "x", GoFiles := ["x.go"] }

/-- The state after `pkgFail`'s failed visit from the empty state: the
destination directory was created, the destination file was created empty
by `os.Create` before the failing open, the copy error was logged, and
the manifest stayed empty. -/
def stFailW : St :=
  { fs := { dirs := ["vendor", "vendor/x"], files := [("vendor/x/x.go", "")] },
    logs := [LogEv.copyErr "x" "open /ext/x/x.go"],
    visitedTrace := ["x"] }

/-- Root package R of the depth-bound scenario: local to the project,
direct import A; per the `Deps` field's documented meaning (all
recursively imported dependencies) its `Deps` list is the transitive
closure A, B, C. -/
def pkgR : Package :=
  { Dir := "/home/proj/cmd/app", ImportPath := "proj/cmd/app",
    Imports := ["A"], Deps := ["A", "B", "C"] }

/-- Dependency A of the scenario: external, imports B. -/
def pkgA : Package :=
  { Dir := "/gopath/src/A", ImportPath := "A", GoFiles := ["a.go"],
    Imports := ["B"], Deps := ["B", "C"] }

/-- Dependency B of the scenario: external, not a direct dependency of R,
imports C. -/
def pkgB : Package :=
  { Dir := "/gopath/src/B", ImportPath := "B", GoFiles := ["b.go"],
    Imports := ["C"], Deps := ["C"] }

/-- Dependency C of the scenario: B's own dependency. -/
def pkgC : Package :=
  { Dir := "/gopath/src/C", ImportPath := "C", GoFiles := ["c.go"] }

/-- Resolver and working directory of the depth-bound scenario. -/
def envScenario : Env :=
  { resolve := fun names =>
      if names == ["proj/cmd/app"] then .ok [pkgR]
      else if names == ["A", "B", "C"] then .ok [pkgA, pkgB, pkgC]
      else .error "unexpected batch",
    cwd := "/home/proj" }

/-- Initial state of the scenario: the three external source files exist. -/
def stScenario : St :=
  { fs := { files := [("/gopath/src/A/a.go", "ca"), ("/gopath/src/B/b.go", "cb"),
            ("/gopath/src/C/c.go", "cc")] } }

/-- A local root whose `Deps` name a package the resolver cannot resolve:
the initial batch succeeds, the recursive batch fails. -/
def pkgLocalRoot : Package :=
  { Dir := "/proj/sub", ImportPath := "rootpkg", Deps := ["X"] }

/-- Environment whose resolver answers the initial batch and fails every
other batch. -/
def envC8 : Env :=
  { resolve := fun names =>
      if names == ["rootpkg"] then .ok [pkgLocalRoot] else .error "resolver down",
    cwd := "/proj" }

/-- Stat oracle for the C6 witness: path `a` exists under the destination
root, everything else is absent. -/
def statW : StatOracle :=
  { stat := fun q => if q == "/proj/vendor/a" then .found else .notFound }

/-- Revision oracle for the C5 witness: a clean repository at `/d/a`, no
source control anywhere else, and a log file that always opens. -/
def oW5 : RevOracle :=
  { revParse := fun d => if d == "/d/a" then .ok "h1" else .error "no git",
    clean := fun _ => true,
    openFails := fun _ => false }

/-- Manifest entry `a` of the C5 witness. -/
def pA5 : Package := { Dir := "/d/a", ImportPath := "a" }

/-- Manifest entry `b` of the C5 witness (its revision lookup fails). -/
def pB5 : Package := { Dir := "/d/b", ImportPath := "b" }

/-- Manifest of the C5 witness, deliberately recorded out of order. -/
def mW5 : List (String × Package) := [("b", pB5), ("a", pA5)]

/-- Package of the C10 witness: three source files, the middle one absent
from the model filesystem. -/
def pkg10 : Package :=
  { Dir := "/src/x", ImportPath := "lib/x", GoFiles := ["f1.go", "f2.go", "f3.go"] }

/-- Filesystem of the C10 witness: only `f1.go` and `f3.go` exist. -/
def fs10 : FS := { files := [("/src/x/f1.go", "c1"), ("/src/x/f3.go", "c3")] }

/-! ### Helper lemmas -/

/-- Boolean prefix test on character lists agrees with the existence of a
completing suffix. -/
theorem isPrefixOf_true_iff : ∀ (p s : List Char), p.isPrefixOf s = true ↔ ∃ t, p ++ t = s
  | [], s => by simp [List.isPrefixOf]
  | _ :: _, [] => by simp [List.isPrefixOf]
  | a :: p, b :: s => by
    simp [List.isPrefixOf, isPrefixOf_true_iff p s, and_assoc, eq_comm (a := b)]

/-- `goContains s pat` holds exactly when `pat` occurs contiguously inside
`s`. -/
theorem goContains_iff : ∀ (s pat : List Char),
    goContains s pat = true ↔ ∃ l r, s = l ++ pat ++ r
  | [], pat => by
    simp only [goContains, List.isEmpty_iff]
    constructor
    · intro h
      exact ⟨[], [], by simp [h]⟩
    · rintro ⟨l, r, h⟩
      rcases List.append_eq_nil.mp h.symm with ⟨h1, _⟩
      exact (List.append_eq_nil.mp h1).2
  | c :: t, pat => by
    simp only [goContains, Bool.or_eq_true, isPrefixOf_true_iff, goContains_iff t pat]
    constructor
    · rintro (⟨u, hu⟩ | ⟨l, r, h⟩)
      · exact ⟨[], u, by simp [hu]⟩
      · exact ⟨c :: l, r, by simp [h]⟩
    · rintro ⟨l, r, h⟩
      match l with
      | [] =>
        exact Or.inl ⟨r, by simpa using h.symm⟩
      | a :: l' =>
        simp only [List.cons_append, List.cons.injEq] at h
        exact Or.inr ⟨l', r, h.2⟩

/-! ### Claim C2 -/

/-- Claim C2, refuted as stated: the import path `vendor/foo` has a path
component literally equal to `vendor` in the first position, yet
`isVendored` classifies it as not externally vendored, because the code
tests for the substring `/vendor/` and a first (or last) component has no
slash on both sides. -/
theorem c2_counterexample :
    "vendor".toList ∈ importComps { ImportPath := "vendor/foo" } ∧
    isVendored { ImportPath := "vendor/foo" } = false := by
  decide

/-- Claim C2 amended: the classifier marks a descriptor externally
vendored exactly when the substring `/vendor/` occurs in its import path,
i.e. when a component equal to `vendor` occurs delimited by slashes on
both sides (hence in a position that is neither first nor last); mere
substring matches such as `github.com/x/vendortools`, and `vendor` as the
first or last component, are never classified externally vendored. -/
theorem c2_amended :
    (∀ p : Package, isVendored p = true ↔
      ∃ l r, p.ImportPath.toList = l ++ "/vendor/".toList ++ r)
    ∧ isVendored { ImportPath := "github.com/x/vendortools" } = false
    ∧ isVendored { ImportPath := "vendor/foo" } = false
    ∧ isVendored { ImportPath := "foo/vendor" } = false
    ∧ isVendored { ImportPath := "a/vendor/b" } = true := by
  refine ⟨fun p => ?_, by decide, by decide, by decide, by decide⟩
  exact goContains_iff p.ImportPath.toList "/vendor/".toList

/-! ### Claim C3 -/

/-- Claim C3: the code compares the descriptor's directory against the
working directory with a plain string-prefix test, so the directory
`/foo/barbaz`, which merely extends the boundary `/foo/bar` without an
intervening separator, IS classified local, contradicting the stated
separator-aware comparison. This evaluates the code at the failing
input. -/
theorem c3_code_eval :
    isLocal { Dir := "/foo/barbaz" } "/foo/bar" = true ∧
    isLocal { Dir := "/foo/bar/sub" } "/foo/bar" = true := by
  decide

/-! ### Walker helper lemmas -/

/-- A walk step with no dependency recursion resolves no batch, never
turns fatal, and leaves the fatal message alone. -/
theorem vendorStep_none_preserve (env : Env) (p : Package) (st : St) :
    (vendorStep env none p st).batchTrace = st.batchTrace ∧
    (vendorStep env none p st).dead = st.dead ∧
    (vendorStep env none p st).fatalMsg = st.fatalMsg := by
  unfold vendorStep
  dsimp only
  repeat' split
  all_goals simp_all

/-- The descriptor loop with no dependency recursion resolves no batch. -/
theorem vendorList_none_batchTrace (env : Env) :
    ∀ (ps : List Package) (st : St),
      (vendorList env none ps st).batchTrace = st.batchTrace
  | [], _ => rfl
  | p :: rest, st => by
    rw [vendorList, vendorList_none_batchTrace env rest]
    exact (vendorStep_none_preserve env p st).1

/-- A `vendor(names, false)` call resolves exactly its own batch: the
batch trace grows by `names` and nothing else. -/
theorem vendorNoDeps_batchTrace (env : Env) (names : List String) (st : St)
    (hdead : st.dead = false) :
    (vendorNoDeps env names st).batchTrace = st.batchTrace ++ [names] := by
  unfold vendorNoDeps vendorCall
  rcases hres : env.resolve names with e | ps <;>
    simp [hdead, hres, vendorList_none_batchTrace]

/-- One loop iteration whose copy fails: the error is logged, the partial
filesystem state is kept, and nothing else changes — in particular the
manifest is untouched and no dependency recursion happens, whatever
`goDeps` is. -/
theorem vendorStep_copyFail (env : Env) (goDeps : Option (List String → St → St))
    (p : Package) (st : St) (fs1 : FS) (e : String)
    (hdead : st.dead = false) (herr : p.Error = none) (hstd : p.Standard = false)
    (hv : isVendored p = false) (hl : isLocal p env.cwd = false)
    (hcopy : copyPackage env.fso st.fs p = (fs1, some e)) :
    vendorStep env goDeps p st
      = { st with fs := fs1,
                  logs := st.logs ++ [LogEv.copyErr p.ImportPath e],
                  visitedTrace := st.visitedTrace ++ [p.ImportPath] } := by
  simp [vendorStep, hdead, herr, hstd, hv, hl, hcopy]

/-! ### Claim C4 -/

/-- Claim C4: a descriptor with the standard-library flag set is skipped
entirely at every recursion level: whatever the recursion callback and the
run state, the step leaves the filesystem (no copy), the manifest, the
skip set and the batch trace (no recursion) unchanged — the only effects
are the ghost visit mark and, when the descriptor also carries a load
error, the error diagnostic that is logged before the standard check. -/
theorem c4_standard_never_touched (env : Env) (goDeps : Option (List String → St → St))
    (p : Package) (st : St) (hdead : st.dead = false) (hstd : p.Standard = true) :
    (p.Error = none →
      vendorStep env goDeps p st
        = { st with visitedTrace := st.visitedTrace ++ [p.ImportPath] })
    ∧ (∀ e, p.Error = some e →
      vendorStep env goDeps p st
        = { st with logs := st.logs ++ [LogEv.pkgErr e.Err],
                    visitedTrace := st.visitedTrace ++ [p.ImportPath] }) := by
  constructor
  · intro herr
    simp [vendorStep, hdead, herr, hstd]
  · intro e herr
    simp [vendorStep, hdead, herr]

/-- Witness for C4 at a concrete standard-library descriptor. -/
theorem c4_witness :
    (({} : St).dead = false ∧ stdPkg.Standard = true) ∧
    vendorStep envTriv none stdPkg {}
      = { ({} : St) with visitedTrace := ({} : St).visitedTrace ++ [stdPkg.ImportPath] } :=
  ⟨⟨rfl, rfl⟩, (c4_standard_never_touched envTriv none stdPkg {} rfl rfl).1 rfl⟩

/-! ### Claims C7 and C9 -/

/-- Claim C7: when the copy of a vendorable package fails, the copy error
is reported, that package's manifest entry is not recorded from that
visit (the state handed to the remaining siblings carries `st.manifest`
unchanged), and the walk continues with the remaining siblings of the
batch instead of aborting. -/
theorem c7_copy_error_continues (env : Env) (goDeps : Option (List String → St → St))
    (p : Package) (rest : List Package) (st : St) (fs1 : FS) (e : String)
    (hdead : st.dead = false) (herr : p.Error = none) (hstd : p.Standard = false)
    (hv : isVendored p = false) (hl : isLocal p env.cwd = false)
    (hcopy : copyPackage env.fso st.fs p = (fs1, some e)) :
    vendorList env goDeps (p :: rest) st
      = vendorList env goDeps rest
          { st with fs := fs1,
                    logs := st.logs ++ [LogEv.copyErr p.ImportPath e],
                    visitedTrace := st.visitedTrace ++ [p.ImportPath] }
    ∧ ({ st with fs := fs1,
                 logs := st.logs ++ [LogEv.copyErr p.ImportPath e],
                 visitedTrace := st.visitedTrace ++ [p.ImportPath] } : St).manifest
        = st.manifest :=
  ⟨congrArg (vendorList env goDeps rest)
    (vendorStep_copyFail env goDeps p st fs1 e hdead herr hstd hv hl hcopy), rfl⟩

/-- Claim C9: when a batch is processed with dependency recursion enabled
and a package's copy fails, the step's result does not depend on the
recursion callback at all and equals the non-recursing error state: none
of the failed package's dependencies are resolved or visited through it
(in particular the batch trace is unchanged). -/
theorem c9_copy_error_skips_recursion (env : Env) (p : Package) (st : St)
    (fs1 : FS) (e : String)
    (hdead : st.dead = false) (herr : p.Error = none) (hstd : p.Standard = false)
    (hv : isVendored p = false) (hl : isLocal p env.cwd = false)
    (hcopy : copyPackage env.fso st.fs p = (fs1, some e)) :
    ∀ goDeps : Option (List String → St → St),
      vendorStep env goDeps p st
        = { st with fs := fs1,
                    logs := st.logs ++ [LogEv.copyErr p.ImportPath e],
                    visitedTrace := st.visitedTrace ++ [p.ImportPath] } :=
  fun goDeps => vendorStep_copyFail env goDeps p st fs1 e hdead herr hstd hv hl hcopy

/-- Witness for C7 at a concrete failing copy. -/
theorem c7_witness :
    copyPackage envW.fso ({} : St).fs pkgFail
        = (stFailW.fs, some "open /ext/x/x.go")
    ∧ vendorList envW none [pkgFail] {} = vendorList envW none [] stFailW := by
  refine ⟨by decide, ?_⟩
  have h := (c7_copy_error_continues envW none pkgFail [] {}
    stFailW.fs "open /ext/x/x.go" rfl rfl rfl (by decide) (by decide) (by decide)).1
  exact h

/-- Witness for C9 at a concrete failing copy, with a recursion callback
present: the callback is ignored. -/
theorem c9_witness :
    vendorStep envW (some (vendorNoDeps envW)) pkgFail {} = stFailW := by
  have h := c9_copy_error_skips_recursion envW pkgFail {}
    stFailW.fs "open /ext/x/x.go" rfl rfl rfl (by decide) (by decide) (by decide)
    (some (vendorNoDeps envW))
  exact h

/-! ### Claim C1 -/

/-- Claim C1, refuted as stated: in the scenario's single
`recurseIntoDeps = true` run, C — a dependency of B, where B is a direct
dependency of A but not of R — IS visited, because the recursive call
passes R's `Deps` field, which lists all transitively imported
dependencies (A, B and C), not only R's direct imports. -/
theorem c1_counterexample :
    pkgB.ImportPath ∈ pkgA.Imports ∧ pkgB.ImportPath ∉ pkgR.Imports ∧
    pkgC.ImportPath ∈ pkgB.Imports ∧ pkgC.ImportPath ∉ pkgR.Imports ∧
    pkgC.ImportPath ∈ (vendor envScenario ["proj/cmd/app"] true stScenario).visitedTrace := by
  decide

/-- Claim C1 amended: a single `recurseIntoDeps = true` walk visits R for
copy eligibility and issues exactly one recursive batch per eligible
root, namely that root's `Deps` list with `recurseIntoDeps` forced to
false; since `Deps` is transitive, A, B AND C are all visited in that run
(B and C through R's `Deps` list, not through A's), and the recursive
batch itself resolves no further batches, so the walk never goes deeper
than two resolution levels. -/
theorem c1_amended :
    (vendor envScenario ["proj/cmd/app"] true stScenario).visitedTrace
        = ["proj/cmd/app", "A", "B", "C"]
    ∧ (vendor envScenario ["proj/cmd/app"] true stScenario).batchTrace
        = [["proj/cmd/app"], ["A", "B", "C"]]
    ∧ (∀ (env : Env) (names : List String) (st : St),
        vendor env names true st = vendorCall env (some (vendorNoDeps env)) names st)
    ∧ (∀ (env : Env) (names : List String) (st : St), st.dead = false →
        (vendorNoDeps env names st).batchTrace = st.batchTrace ++ [names]) := by
  refine ⟨by decide, by decide, fun env names st => rfl, fun env names st h =>
    vendorNoDeps_batchTrace env names st h⟩

/-- Witness for C1's amended statement at the scenario's recursive
batch. -/
theorem c1_amended_witness :
    stScenario.dead = false ∧
    (vendorNoDeps envScenario ["A", "B", "C"] stScenario).batchTrace
      = stScenario.batchTrace ++ [["A", "B", "C"]] :=
  ⟨rfl, c1_amended.2.2.2 envScenario ["A", "B", "C"] stScenario rfl⟩

/-! ### Claim C8 -/

/-- Claim C8, refuted as stated: the initial resolution of the root names
succeeds, yet the run turns fatal, because the resolver failure occurs in
the recursive (non-initial) batch for the root's dependencies and
`vendor` calls `log.Fatalf` on any batch resolution failure, not only the
initial one. -/
theorem c8_counterexample :
    envC8.resolve ["rootpkg"] = .ok [pkgLocalRoot]
    ∧ (vendor envC8 ["rootpkg"] true {}).dead = true
    ∧ (vendor envC8 ["rootpkg"] true {}).fatalMsg = some "resolver down"
    ∧ (vendor envC8 ["rootpkg"] true {}).batchTrace = [["rootpkg"], ["X"]] := by
  exact ⟨rfl, by decide, by decide, by decide⟩

/-- Claim C8 amended: the run aborts fatally exactly at batch-resolution
failures — of the initial batch OR of a recursive batch — and at a stat
failure other than not-exist during the skip report; per-package steps
without recursion never turn the run fatal, and revision-lookup failures
never abort the manifest report. -/
theorem c8_amended :
    (∀ (env : Env) (goDeps : Option (List String → St → St))
        (names : List String) (st : St) (e : String),
      st.dead = false → env.resolve names = .error e →
      (vendorCall env goDeps names st).dead = true
      ∧ (vendorCall env goDeps names st).fatalMsg = some e)
    ∧ (∀ (env : Env) (p : Package) (st : St),
        (vendorStep env none p st).dead = st.dead)
    ∧ (∀ (o : StatOracle) (cwd : String) (keys : List String) (k : String) (msg : String),
        k ∈ keys → o.stat (joinPath (joinPath cwd "vendor") k) = .statErr msg →
        (reportExtVendoredDep o cwd keys).2.isSome = true)
    ∧ (∀ (o : RevOracle) (name : String) (m : List (String × Package))
        (prior : List String), o.openFails name = false →
        ∃ out logs, reportManifest o name m prior = .ok (out, logs)) := by
  refine ⟨?_, ?_, ?_, ?_⟩
  · intro env goDeps names st e hdead hres
    constructor <;> simp [vendorCall, hdead, hres]
  · intro env p st
    exact (vendorStep_none_preserve env p st).2.1
  · intro o cwd keys k msg hk hstat
    induction keys with
    | nil => cases hk
    | cons k' rest ih =>
      rcases hs : o.stat (joinPath (joinPath cwd "vendor") k') with _ | _ | m'
      · rcases List.mem_cons.mp hk with h | h
        · rw [h] at hstat
          rw [hstat] at hs
          cases hs
        · simpa [reportExtVendoredDep, hs] using ih h
      · rcases List.mem_cons.mp hk with h | h
        · rw [h] at hstat
          rw [hstat] at hs
          cases hs
        · simpa [reportExtVendoredDep, hs] using ih h
      · simp [reportExtVendoredDep, hs]
  · intro o name m prior hopen
    exact ⟨prior ++ (reportManifestLoop o m (sortedImps m)).1,
      (reportManifestLoop o m (sortedImps m)).2, by simp [reportManifest, hopen]⟩

/-- Witness for C8's amended statement: a concrete resolver failure turns
the run fatal, and a concrete stat error aborts the skip report. -/
theorem c8_amended_witness :
    (({} : St).dead = false ∧ envC8.resolve ["X"] = .error "resolver down")
    ∧ (vendorCall envC8 none ["X"] {}).dead = true
    ∧ (vendorCall envC8 none ["X"] {}).fatalMsg = some "resolver down"
    ∧ (reportExtVendoredDep { stat := fun _ => .statErr "denied" } "/proj" ["k"]).2.isSome
        = true :=
  ⟨⟨rfl, rfl⟩,
   (c8_amended.1 envC8 none ["X"] {} "resolver down" rfl rfl).1,
   (c8_amended.1 envC8 none ["X"] {} "resolver down" rfl rfl).2,
   c8_amended.2.2.1 { stat := fun _ => .statErr "denied" } "/proj" ["k"] "k" "denied"
     (List.mem_singleton.mpr rfl) rfl⟩

/-! ### Claim C6 -/

/-- When no stat call fails outright, the skip report prints exactly the
noted paths that are absent under the destination root, in order, and
does not abort. -/
theorem reportExt_no_statErr (o : StatOracle) (cwd : String) :
    ∀ keys : List String,
      (∀ k ∈ keys, (o.stat (joinPath (joinPath cwd "vendor") k)).isErr = false) →
      reportExtVendoredDep o cwd keys
        = (keys.filter (fun k => o.stat (joinPath (joinPath cwd "vendor") k) == .notFound),
           none)
  | [], _ => rfl
  | k :: rest, h => by
    have hrest := reportExt_no_statErr o cwd rest
      (fun k' hk' => h k' (List.mem_cons_of_mem _ hk'))
    rcases hs : o.stat (joinPath (joinPath cwd "vendor") k) with _ | _ | m
    · simp [reportExtVendoredDep, hs, hrest, List.filter_cons]
    · simp [reportExtVendoredDep, hs, hrest, List.filter_cons]
    · have := h k (List.mem_cons_self k rest)
      rw [hs] at this
      exact absurd this (by simp [StatRes.isErr])

/-- Claim C6: assuming every stat under the destination root answers
found or not-found, the skip reporter prints exactly the noted paths with
no entry under the destination vendor root — each at most once when the
skip set is deduplicated, which `noteExtVendoredDep` guarantees — and a
noted path present under the destination root produces no output line. -/
theorem c6_skip_report (o : StatOracle) (cwd : String) (keys : List String)
    (hok : ∀ k ∈ keys, (o.stat (joinPath (joinPath cwd "vendor") k)).isErr = false) :
    reportExtVendoredDep o cwd keys
      = (keys.filter (fun k => o.stat (joinPath (joinPath cwd "vendor") k) == .notFound),
         none)
    ∧ (keys.Nodup →
        (keys.filter (fun k => o.stat (joinPath (joinPath cwd "vendor") k) == .notFound)).Nodup)
    ∧ (∀ k, k ∈ keys.filter (fun k => o.stat (joinPath (joinPath cwd "vendor") k) == .notFound)
        ↔ k ∈ keys ∧ o.stat (joinPath (joinPath cwd "vendor") k) = .notFound)
    ∧ (∀ (s : List String) (p : Package), s.Nodup → (noteExtVendoredDep s p).Nodup) := by
  refine ⟨reportExt_no_statErr o cwd keys hok, fun hnd => hnd.filter _, fun k => ?_, ?_⟩
  · simp
  · intro s p hs
    unfold noteExtVendoredDep
    split
    · exact hs
    next hc =>
      have hmem : p.ImportPath ∉ s := by
        simpa using hc
      simp [List.nodup_append, hs, hmem]

/-- Witness for C6: of the noted paths `a` and `b`, only the absent `b`
is printed, and the report does not abort. -/
theorem c6_witness :
    (∀ k ∈ ["a", "b"], (statW.stat (joinPath (joinPath "/proj" "vendor") k)).isErr = false)
    ∧ reportExtVendoredDep statW "/proj" ["a", "b"] = (["b"], none) := by
  have h := (c6_skip_report statW "/proj" ["a", "b"] (by decide)).1
  exact ⟨by decide, by rw [h]; rfl⟩

/-! ### Claim C5 -/

/-- A key appearing among the manifest keys always resolves. -/
theorem lookupManifest_isSome_of_mem_keys (m : List (String × Package)) (imp : String)
    (h : imp ∈ m.map Prod.fst) : (lookupManifest m imp).isSome = true := by
  induction m with
  | nil => simp at h
  | cons a rest ih =>
    rw [List.map_cons] at h
    by_cases ha : (a.1 == imp) = true
    · simp [lookupManifest, List.find?_cons, ha]
    · have ha2 : (a.1 == imp) = false := by simpa using ha
      rcases List.mem_cons.mp h with h1 | h1
      · exact absurd (by simp [h1]) ha
      · simpa [lookupManifest, List.find?_cons, ha2] using ih h1

/-- With distinct keys, looking up a recorded entry's key returns exactly
that entry. -/
theorem lookupManifest_eq_of_nodup (m : List (String × Package)) (imp : String)
    (p : Package) (hnd : (m.map Prod.fst).Nodup) (hmem : (imp, p) ∈ m) :
    lookupManifest m imp = some p := by
  induction m with
  | nil => cases hmem
  | cons a rest ih =>
    rw [List.map_cons] at hnd
    have hnd' := List.nodup_cons.mp hnd
    rcases List.mem_cons.mp hmem with h | h
    · rw [← h]
      simp [lookupManifest, List.find?_cons]
    · have ha2 : (a.1 == imp) = false := by
        rw [beq_eq_false_iff_ne]
        intro he
        refine hnd'.1 ?_
        rw [he]
        exact List.mem_map_of_mem Prod.fst h
      simpa [lookupManifest, List.find?_cons, ha2] using ih hnd'.2 h

/-- The report loop, when every key resolves, produces one line per key
and the concatenation of per-key error diagnostics, in key order. -/
theorem reportManifestLoop_eq (o : RevOracle) (m : List (String × Package)) :
    ∀ imps : List String, (∀ imp ∈ imps, (lookupManifest m imp).isSome = true) →
      reportManifestLoop o m imps
        = (imps.map (impLine o m), (imps.map (impErrLogs o m)).flatten)
  | [], _ => rfl
  | imp :: rest, h => by
    have hsome := h imp (List.mem_cons_self imp rest)
    rcases hl : lookupManifest m imp with _ | p
    · rw [hl] at hsome
      cases hsome
    · have ih := reportManifestLoop_eq o m rest (fun i hi => h i (List.mem_cons_of_mem _ hi))
      rcases hc : commitHash o p.Dir with ⟨cm, er⟩
      cases er <;> simp [reportManifestLoop, hl, ih, impLine, impErrLogs, hc]

/-- Manifest keys obtained after removing one key, projected. -/
theorem map_fst_filter_ne (m : List (String × Package)) (k : String) :
    (m.filter (fun e => !(e.1 == k))).map Prod.fst
      = (m.map Prod.fst).filter (fun x => !(x == k)) := by
  induction m with
  | nil => rfl
  | cons a rest ih =>
    by_cases h : (a.1 == k) = true <;> simp [List.filter_cons, h, ih]

/-- The byte-wise comparison is total. -/
theorem charListLe_total : ∀ a b : List Char, charListLe a b = true ∨ charListLe b a = true
  | [], _ => Or.inl rfl
  | _ :: _, [] => Or.inr rfl
  | x :: xs, y :: ys => by
    by_cases h1 : x < y
    · left
      simp [charListLe, h1]
    · by_cases h2 : y < x
      · right
        simp [charListLe, h2]
      · rcases charListLe_total xs ys with h | h
        · left
          simp [charListLe, h1, h2, h]
        · right
          simp [charListLe, h2, h1, h]

/-- The byte-wise comparison is transitive. -/
theorem charListLe_trans : ∀ a b c : List Char,
    charListLe a b = true → charListLe b c = true → charListLe a c = true
  | [], _, _ => fun _ _ => rfl
  | _ :: _, [], _ => by
    intro h1 _
    simp [charListLe] at h1
  | _ :: _, _ :: _, [] => by
    intro _ h2
    simp [charListLe] at h2
  | x :: xs, y :: ys, z :: zs => by
    intro h1 h2
    by_cases hxy : x < y
    · by_cases hyz : y < z
      · simp [charListLe, lt_trans hxy hyz]
      · by_cases hzy : z < y
        · simp [charListLe, hyz, hzy] at h2
        · simp [charListLe, lt_of_lt_of_le hxy (not_lt.mp hzy)]
    · by_cases hyx : y < x
      · simp [charListLe, hxy, hyx] at h1
      · by_cases hyz : y < z
        · simp [charListLe, lt_of_le_of_lt (not_lt.mp hyx) hyz]
        · by_cases hzy : z < y
          · simp [charListLe, hyz, hzy] at h2
          · have hxey : x = y := le_antisymm (not_lt.mp hyx) (not_lt.mp hxy)
            have hyez : y = z := le_antisymm (not_lt.mp hzy) (not_lt.mp hyz)
            subst hxey
            subst hyez
            simp only [charListLe, lt_irrefl, if_false] at h1 h2 ⊢
            exact charListLe_trans xs ys zs h1 h2

/-- The byte-wise comparison agrees with the order-theoretic one on
character lists. -/
theorem charListLe_iff_not_lt : ∀ a b : List Char, charListLe a b = true ↔ ¬ b < a
  | [], b => by
    constructor
    · intro _ h
      cases h
    · intro _
      rfl
  | x :: xs, [] => by
    constructor
    · intro h
      simp [charListLe] at h
    · intro h
      exact absurd List.Lex.nil h
  | x :: xs, y :: ys => by
    constructor
    · intro h hlt
      cases hlt with
      | rel hyx =>
        by_cases hxy : x < y
        · exact lt_asymm hxy hyx
        · simp [charListLe, hxy, hyx] at h
      | cons htail =>
        simp only [charListLe, lt_irrefl, if_false] at h
        exact (charListLe_iff_not_lt xs ys).mp h htail
    · intro h
      by_cases hxy : x < y
      · simp [charListLe, hxy]
      · by_cases hyx : y < x
        · exact absurd (List.Lex.rel hyx) h
        · have hxe : y = x := le_antisymm (not_lt.mp hxy) (not_lt.mp hyx)
          subst hxe
          simp only [charListLe, lt_irrefl, if_false]
          exact (charListLe_iff_not_lt xs ys).mpr
            (fun htail => h (List.Lex.cons htail))

/-- `strLe` agrees with the ambient linear order on strings. -/
theorem strLe_iff (a b : String) : strLe a b = true ↔ a ≤ b := by
  rw [show (strLe a b = true) ↔ ¬ b.toList < a.toList from
    charListLe_iff_not_lt a.toList b.toList]
  rw [← String.lt_iff_toList_lt]
  exact not_lt

/-- Claim C5: with distinct manifest keys and a log file that opens,
finalize appends — never truncating the prior contents — exactly one line
`commit ++ TAB ++ importPath` per recorded entry, in ascending import-path
order; a failed revision lookup does not abort the report, writes the
sentinel `unknown` in the entry's line, and is reported separately; and
`noteManifest` keeps manifest keys distinct, so the key hypothesis holds
for every manifest the walk builds. -/
theorem c5_manifest_report (o : RevOracle) (name : String)
    (m : List (String × Package)) (prior : List String)
    (hnd : (m.map Prod.fst).Nodup) (hopen : o.openFails name = false) :
    reportManifest o name m prior
      = .ok (prior ++ (sortedImps m).map (impLine o m),
             ((sortedImps m).map (impErrLogs o m)).flatten)
    ∧ List.Sorted (· ≤ ·) (sortedImps m)
    ∧ (sortedImps m).length = m.length
    ∧ (∀ imp p, (imp, p) ∈ m →
        impLine o m imp = (commitHash o p.Dir).1 ++ "\t" ++ imp
        ∧ ((commitHash o p.Dir).1 ++ "\t" ++ imp) ∈ (sortedImps m).map (impLine o m))
    ∧ (∀ imp p e, (imp, p) ∈ m → o.revParse p.Dir = .error e →
        impLine o m imp = "unknown" ++ "\t" ++ imp
        ∧ LogEv.commitErr imp e ∈ ((sortedImps m).map (impErrLogs o m)).flatten)
    ∧ (∀ (m2 : List (String × Package)) (q : Package), (m2.map Prod.fst).Nodup →
        ((noteManifest m2 q).map Prod.fst).Nodup) := by
  have htot : ∀ imp ∈ sortedImps m, (lookupManifest m imp).isSome = true := by
    intro imp hi
    exact lookupManifest_isSome_of_mem_keys m imp
      ((List.mem_insertionSort _).mp hi)
  refine ⟨?_, ?_, ?_, ?_, ?_, ?_⟩
  · rw [reportManifest, if_neg (by simp [hopen])]
    rw [reportManifestLoop_eq o m (sortedImps m) htot]
  · haveI : IsTotal String (fun a b => strLe a b = true) :=
      ⟨fun a b => charListLe_total a.toList b.toList⟩
    haveI : IsTrans String (fun a b => strLe a b = true) :=
      ⟨fun a b c => charListLe_trans a.toList b.toList c.toList⟩
    have hs := List.sorted_insertionSort (fun a b => strLe a b = true) (m.map Prod.fst)
    exact hs.imp (fun h => (strLe_iff _ _).mp h)
  · simp [sortedImps, List.length_insertionSort]
  · intro imp p hmem
    have hl := lookupManifest_eq_of_nodup m imp p hnd hmem
    have hline : impLine o m imp = (commitHash o p.Dir).1 ++ "\t" ++ imp := by
      simp [impLine, hl]
    have hin : imp ∈ sortedImps m :=
      (List.mem_insertionSort _).mpr (List.mem_map_of_mem Prod.fst hmem)
    exact ⟨hline, hline ▸ List.mem_map_of_mem (impLine o m) hin⟩
  · intro imp p e hmem hrev
    have hl := lookupManifest_eq_of_nodup m imp p hnd hmem
    have hc : commitHash o p.Dir = ("unknown", some e) := by
      simp [commitHash, hrev]
    have hin : imp ∈ sortedImps m :=
      (List.mem_insertionSort _).mpr (List.mem_map_of_mem Prod.fst hmem)
    refine ⟨by simp [impLine, hl, hc], ?_⟩
    exact List.mem_flatten.mpr ⟨impErrLogs o m imp,
      List.mem_map_of_mem (impErrLogs o m) hin, by simp [impErrLogs, hl, hc]⟩
  · intro m2 q h2
    unfold noteManifest
    rw [List.map_cons, map_fst_filter_ne]
    refine List.nodup_cons.mpr ⟨?_, h2.filter _⟩
    intro hmem
    have hpred := (List.mem_filter.mp hmem).2
    simp at hpred

/-- Witness for C5: the two entries come out sorted and appended after
the prior line, entry `b` gets the `unknown` sentinel plus a separate
commit-hash diagnostic, and the report succeeds. -/
theorem c5_witness :
    ((mW5.map Prod.fst).Nodup ∧ oW5.openFails "vendor-log" = false)
    ∧ reportManifest oW5 "vendor-log" mW5 ["old\tline"]
        = .ok (["old\tline", "h1\ta", "unknown\tb"], [LogEv.commitErr "b" "no git"]) := by
  have h := (c5_manifest_report oW5 "vendor-log" mW5 ["old\tline"] (by decide) rfl).1
  exact ⟨⟨by decide, rfl⟩, by rw [h]; rfl⟩

/-! ### Claim C10 -/

/-- Looking up after a write: the written path has the new content, every
other path is untouched. -/
theorem lookupFile_setFile (fs : FS) (p c q : String) :
    (fs.setFile p c).lookupFile q = if p = q then some c else fs.lookupFile q := by
  by_cases hpq : p = q
  · subst hpq
    simp [FS.setFile, FS.lookupFile, List.find?_cons]
  · have hp : (p == q) = false := by simpa using hpq
    simp only [FS.setFile, FS.lookupFile, List.find?_cons, hp, if_neg hpq]
    congr 1
    induction fs.files with
    | nil => rfl
    | cons a rest ih =>
      by_cases hap : (a.1 == p) = true
      · have haq : (a.1 == q) = false := by
          have he : a.1 = p := by simpa using hap
          simp [he, hpq]
        simp [List.filter_cons, hap, List.find?_cons, haq, ih]
      · have hap2 : (a.1 == p) = false := by simpa using hap
        by_cases haq : (a.1 == q) = true
        · simp [List.filter_cons, hap2, List.find?_cons, haq]
        · have haq2 : (a.1 == q) = false := by simpa using haq
          simp [List.filter_cons, hap2, List.find?_cons, haq2, ih]

/-- A write never deletes a file. -/
theorem lookup_setFile_isSome (fs : FS) (a b q : String)
    (h : (fs.lookupFile q).isSome = true) :
    ((fs.setFile a b).lookupFile q).isSome = true := by
  rw [lookupFile_setFile]
  split
  · rfl
  · exact h

/-- `copyFile` never touches the directory set. -/
theorem copyFile_dirs (o : FSOracle) (fs : FS) (d s : String) :
    ((copyFile o fs d s).1).dirs = fs.dirs := by
  unfold copyFile
  dsimp only
  repeat' split
  all_goals rfl

/-- `copyFile` never deletes a file, whatever its outcome. -/
theorem copyFile_lookup_isSome (o : FSOracle) (fs : FS) (d s q : String)
    (h : (fs.lookupFile q).isSome = true) :
    (((copyFile o fs d s).1).lookupFile q).isSome = true := by
  unfold copyFile
  dsimp only
  split
  · exact h
  · split
    · exact lookup_setFile_isSome fs d "" q h
    · exact lookup_setFile_isSome _ d _ q (lookup_setFile_isSome fs d "" q h)

/-- A failing run of the per-file copy loop performs no rollback: the
directory set is exactly what it was when the loop started, and every
file present when the loop started — or copied by the loop before the
failure — is still present in the failure state. -/
theorem copyFiles_fail_preserve (o : FSOracle) (vdir srcdir : String) :
    ∀ (l : List String) (fs2 fs3 : FS) (e : String),
      copyFiles o vdir srcdir fs2 l = (fs3, some e) →
      fs3.dirs = fs2.dirs
      ∧ ∀ q, (fs2.lookupFile q).isSome = true → (fs3.lookupFile q).isSome = true
  | [], fs2, fs3, e => by
    intro h
    simp [copyFiles] at h
  | f :: rest, fs2, fs3, e => by
    intro h
    unfold copyFiles at h
    rcases hcf : copyFile o fs2 (joinPath vdir f) (joinPath srcdir f) with ⟨fs1, e1⟩
    rw [hcf] at h
    have hd1 : fs1.dirs = fs2.dirs := by
      have := copyFile_dirs o fs2 (joinPath vdir f) (joinPath srcdir f)
      rwa [hcf] at this
    have hl1 : ∀ q, (fs2.lookupFile q).isSome = true → (fs1.lookupFile q).isSome = true := by
      intro q hq
      have := copyFile_lookup_isSome o fs2 (joinPath vdir f) (joinPath srcdir f) q hq
      rwa [hcf] at this
    cases e1 with
    | some e2 =>
      obtain ⟨h1, h2⟩ := Prod.mk.injEq fs1 (some e2) fs3 (some e) ▸ h
      subst h1
      exact ⟨hd1, hl1⟩
    | none =>
      have ih := copyFiles_fail_preserve o vdir srcdir rest fs1 fs3 e h
      exact ⟨ih.1.trans hd1, fun q hq => ih.2 q (hl1 q hq)⟩

/-- `os.MkdirAll` really records the directory and all its ancestors. -/
theorem mem_mkDirAll (fs : FS) (p d : String) (h : d ∈ ancestorPaths p) :
    d ∈ (fs.mkDirAll p).dirs := by
  unfold FS.mkDirAll
  by_cases hm : d ∈ fs.dirs
  · exact List.mem_append_left _ hm
  · refine List.mem_append_right _ (List.mem_filter.mpr ⟨h, ?_⟩)
    simp [hm]

/-- Claim C10: the per-package copy is not atomic. `copyPackage` creates
the destination directory (with its ancestors) before copying any file;
the per-file loop returns immediately at the first file whose copy
fails, leaving the failure state as is; a failing loop never removes the
created directories nor any file already present (so the files copied
before the failure stay in place); the created destination directory and
its ancestors are still present in any failure state; and the walker
records no manifest entry for the package whose copy failed. -/
theorem c10_copy_not_atomic (o : FSOracle) (fs : FS) (p : Package)
    (hmk : o.mkdirFails (joinPath "vendor" p.ImportPath) = false) :
    copyPackage o fs p
      = copyFiles o (joinPath "vendor" p.ImportPath) p.Dir
          (fs.mkDirAll (joinPath "vendor" p.ImportPath)) (packageFiles p)
    ∧ (∀ (fs2 fs3 : FS) (f : String) (rest : List String) (e : String),
        copyFile o fs2 (joinPath (joinPath "vendor" p.ImportPath) f) (joinPath p.Dir f)
          = (fs3, some e) →
        copyFiles o (joinPath "vendor" p.ImportPath) p.Dir fs2 (f :: rest) = (fs3, some e))
    ∧ (∀ (l : List String) (fs2 fs3 : FS) (e : String),
        copyFiles o (joinPath "vendor" p.ImportPath) p.Dir fs2 l = (fs3, some e) →
        fs3.dirs = fs2.dirs
        ∧ ∀ q, (fs2.lookupFile q).isSome = true → (fs3.lookupFile q).isSome = true)
    ∧ (∀ (fs3 : FS) (e : String), copyPackage o fs p = (fs3, some e) →
        ∀ d ∈ ancestorPaths (joinPath "vendor" p.ImportPath), d ∈ fs3.dirs)
    ∧ (∀ (env : Env) (goDeps : Option (List String → St → St)) (st : St) (fs3 : FS)
        (e : String), st.dead = false → p.Error = none → p.Standard = false →
        isVendored p = false → isLocal p env.cwd = false →
        copyPackage env.fso st.fs p = (fs3, some e) →
        (vendorStep env goDeps p st).manifest = st.manifest) := by
  have h1 : copyPackage o fs p
      = copyFiles o (joinPath "vendor" p.ImportPath) p.Dir
          (fs.mkDirAll (joinPath "vendor" p.ImportPath)) (packageFiles p) := by
    simp [copyPackage, hmk]
  refine ⟨h1, ?_, ?_, ?_, ?_⟩
  · intro fs2 fs3 f rest e hcf
    simp [copyFiles, hcf]
  · intro l fs2 fs3 e h
    exact copyFiles_fail_preserve o (joinPath "vendor" p.ImportPath) p.Dir l fs2 fs3 e h
  · intro fs3 e hcp d hd
    rw [h1] at hcp
    have := (copyFiles_fail_preserve o (joinPath "vendor" p.ImportPath) p.Dir
      (packageFiles p) _ fs3 e hcp).1
    rw [this]
    exact mem_mkDirAll fs (joinPath "vendor" p.ImportPath) d hd
  · intro env goDeps st fs3 e hdead herr hstd hv hl hcopy
    rw [vendorStep_copyFail env goDeps p st fs3 e hdead herr hstd hv hl hcopy]

/-- Witness for C10: the destination tree keeps the created directories,
the fully copied `f1.go`, and the empty `f2.go` created before the
failing open; `f3.go` was never attempted. -/
theorem c10_witness :
    ({} : FSOracle).mkdirFails (joinPath "vendor" pkg10.ImportPath) = false
    ∧ copyPackage ({} : FSOracle) fs10 pkg10
        = copyFiles {} (joinPath "vendor" pkg10.ImportPath) pkg10.Dir
            (fs10.mkDirAll (joinPath "vendor" pkg10.ImportPath)) (packageFiles pkg10)
    ∧ copyPackage ({} : FSOracle) fs10 pkg10
        = ({ dirs := ["vendor", "vendor/lib", "vendor/lib/x"],
             files := [("vendor/lib/x/f2.go", ""), ("vendor/lib/x/f1.go", "c1"),
                       ("/src/x/f1.go", "c1"), ("/src/x/f3.go", "c3")] },
           some "open /src/x/f2.go") :=
  ⟨rfl, (c10_copy_not_atomic {} fs10 pkg10 rfl).1, by decide⟩

end Vendor
